import Mathlib

/-!
Shallow embedding of the debian-dedup extraction pipeline
(`importpkg.py`) and of the web application's `format_size`
(`webapp.py`).

`importpkg.py` reads a Debian package (an `ar` archive) from a stream and
emits a record sequence: one package-metadata record, one record per
regular file of the data tarball, and finally the string `"commit"`.

The repository modules `dedup.arreader`, `dedup.hashing`,
`dedup.compression` and `dedup.image`, as well as the external libraries
(`tarfile`, `hashlib`, `zlib`, `lzma`, `debian.deb822`), are not part of
the sources under verification; they are modelled from the specification
as abstract oracle functions collected in the `Oracles` structure, and the
`ar` layer is modelled as the member list it yields.
-/

/-- Byte strings are lists of byte values (each < 256 in intended use). -/
abbrev Bytes := List Nat

/-- A tar entry as surfaced by the external `tarfile` iterator:
its raw (byte string) name, whether it is a regular file (`isreg()`),
the size claimed by the tar header, and the bytes of its content. -/
structure TarEntry where
  name : Bytes
  isReg : Bool
  size : Nat
  content : Bytes
deriving DecidableEq

/-- An `ar` archive member as yielded by `ArReader.read_entry`:
the (padding/slash stripped) member name and the member body bytes.
Modelled from the spec: `dedup.arreader.ArReader` (not under `src/`)
iterates members of the outer ar archive in order. -/
structure ArMember where
  name : String
  body : Bytes
deriving DecidableEq

/-- The input to `process_package`: the raw outer byte stream (used only
for the outer SHA-256 in `process_package_with_hash`), whether the ar
magic is present (`ArReader.read_magic` fails otherwise — modelled from
the spec), and the sequence of ar members the reader yields. -/
structure DebInput where
  rawBytes : Bytes
  magicOk : Bool
  members : List ArMember
deriving DecidableEq

/-- The metadata dictionary returned by `process_control`
(importpkg.py lines 73-87).  Python collects `depends` into a `set`;
here it is kept as the list of contributing names, and theorems speak
about membership. -/
structure PackageMetadata where
  package : String
  source : String
  version : String
  architecture : String
  depends : List String
deriving DecidableEq

/-- One document of the emitted yaml stream: the metadata mapping, a
file mapping (`name`/`size`/`hashes`), or the terminal `"commit"`. -/
inductive Record where
  | metadata (m : PackageMetadata)
  | file (name : String) (size : Nat) (hashes : List (String × String))
  | commit
deriving DecidableEq

/-- Exceptions that abort `process_package` / `process_package_with_hash`.
`valueError` carries the message of a `ValueError` raised in
`importpkg.py`; the other constructors stand for failures of the
(modelled) ar reader, of the external tar/decompression machinery and of
control parsing. -/
inductive PkgError where
  | valueError (msg : String)
  | arFormatError
  | tarError
  | controlError
deriving DecidableEq

/-- The `state` variable of `process_package` (importpkg.py line 92):
`"start"`, `"control"`, `"control_file"`. -/
inductive PState where
  | start
  | control
  | control_file
deriving DecidableEq

/-- The view of the `./control` document produced by the external
`debian.deb822.Packages` parser: the optional fields accessed by
`process_control` and the parsed `Depends` relation (a list of clauses,
each clause a list of alternative package names). -/
structure ControlDoc where
  package : Option String
  source : Option String
  version : Option String
  architecture : Option String
  relations_depends : List (List String)
deriving DecidableEq

/-- External and repository-internal building blocks that
`importpkg.py` calls but whose code is not under `src/`, modelled from
the spec as pure oracles:
* `gunzip`/`bunzip2`/`unxz` — whole-stream decompression (`none` = the
  decompressor rejects its input);
* `parseTar` — the external `tarfile` iterator over a decompressed tar
  byte stream;
* `parseControl` — the external `deb822.Packages` parser;
* `utf8Decode` — Python `bytes.decode("utf8")`;
* `sha512hex` — `hashlib.sha512(...).hexdigest()`;
* `gzipCanonical`/`pngCanonical`/`gifCanonical` — the canonical byte
  sequence extracted by `DecompressedHash(GzipDecompressor(), ...)`,
  `PNGHash`, `GIFHash` (`none` = the parse error that `SuppressingHash`
  absorbs). -/
structure Oracles where
  gunzip : Bytes → Option Bytes
  bunzip2 : Bytes → Option Bytes
  unxz : Bytes → Option Bytes
  parseTar : Bytes → Option (List TarEntry)
  parseControl : Bytes → Option ControlDoc
  utf8Decode : Bytes → Option String
  sha512hex : Bytes → String
  gzipCanonical : Bytes → Option Bytes
  pngCanonical : Bytes → Option Bytes
  gifCanonical : Bytes → Option Bytes

/-- The blacklist of boring SHA-512 hex digests
(importpkg.py lines 32-36): the digests of `""` and of `"\n"`. -/
def boring_sha512_hashes : List String :=
  ["cf83e1357eefb8bdf1542850d66d8007d620e4050b5715dc83f4a921d36ce9ce47d0d13c5d85f2b0ff8318d2877eec2f63b931bd47417a81a538327af927da3e",
   "be688838ca8686e5c90689bf2ab585cef1137c999b48c70b92f67a5c34dc15697b5d11c982ed6d71be1e1e7f7b4e0733884aa97c3f7a339a8ed03577cf74be09"]

/-- Modelled from the spec: `HashBlacklist.hexdigest` returns the empty
string when the inner digest is a member of the blacklist, and the inner
digest unchanged otherwise. -/
def hashBlacklist (v : String) : String :=
  if v ∈ boring_sha512_hashes then "" else v

/-- `sha512_nontrivial()` (importpkg.py lines 38-39) applied to a file's
content: the raw SHA-512 hex digest filtered through the blacklist. -/
def sha512_nontrivial (E : Oracles) (content : Bytes) : String :=
  hashBlacklist (E.sha512hex content)

/-- `gziphash()` (importpkg.py lines 41-45):
`HashBlacklist(SuppressingHash(DecompressedHash(GzipDecompressor, sha512)))`.
A decompression error suppressed by `SuppressingHash` yields `""`;
otherwise the SHA-512 of the decompressed bytes, blacklisted. -/
def gziphash (E : Oracles) (content : Bytes) : String :=
  hashBlacklist
    (match E.gzipCanonical content with
     | none => ""
     | some d => E.sha512hex d)

/-- `pnghash()` (importpkg.py lines 47-51): `SuppressingHash(PNGHash(sha512))`. -/
def pnghash (E : Oracles) (content : Bytes) : String :=
  match E.pngCanonical content with
  | none => ""
  | some d => E.sha512hex d

/-- `gifhash()` (importpkg.py lines 53-57): `SuppressingHash(GIFHash(sha512))`. -/
def gifhash (E : Oracles) (content : Bytes) : String :=
  match E.gifCanonical content with
  | none => ""
  | some d => E.sha512hex d

/-- The `hashes` dictionary built in `get_hashes` (importpkg.py
lines 66-70): for each of the four hashers in order, the pair
`(hashobj.name, hexdigest)` is kept only when the digest is non-empty. -/
def get_file_hashes (E : Oracles) (content : Bytes) : List (String × String) :=
  ([("sha512", sha512_nontrivial E content),
    ("gzip_sha512", gziphash E content),
    ("png_sha512", pnghash E content),
    ("gif_sha512", gifhash E content)]).filter (fun p => p.2 ≠ "")

/-- `get_hashes(tar)` (importpkg.py lines 59-71): for each regular tar
entry (non-regular entries are skipped) yield its raw name, header size
and hash dictionary. -/
def get_hashes (E : Oracles) (entries : List TarEntry) :
    List (Bytes × Nat × List (String × String)) :=
  entries.filterMap (fun e =>
    if e.isReg then some (e.name, e.size, get_file_hashes E e.content) else none)

/-- The per-file loop of `process_package` (importpkg.py lines 125-131):
each `get_hashes` triple whose name decodes as UTF-8 becomes a file
record; names with a decode error are skipped (with a warning printed to
stdout, a side effect outside this embedding). -/
def file_records (E : Oracles) (entries : List TarEntry) : List Record :=
  (get_hashes E entries).filterMap (fun t =>
    match E.utf8Decode t.1 with
    | none => none
    | some s => some (Record.file s t.2.1 t.2.2))

/-- Python `str.encode("ascii")`: succeeds (returning the string
unchanged) exactly when every character is below 128. -/
def asciiEncode (s : String) : Option String :=
  if s.toList.all (fun c => c.toNat < 128) then some s else none

/-- Whitespace for Python `str.split()` with no argument:
space, tab, newline, carriage return, vertical tab, form feed. -/
def isPySpace (c : Char) : Bool :=
  c.toNat == 32 || c.toNat == 9 || c.toNat == 10 ||
  c.toNat == 13 || c.toNat == 11 || c.toNat == 12

/-- Token accumulator for `pySplit`: `acc` holds the current
(reversed) run of non-whitespace characters. -/
def pyTokens : List Char → List Char → List String
  | [], acc => if acc.isEmpty then [] else [String.mk acc.reverse]
  | c :: rest, acc =>
    if isPySpace c then
      (if acc.isEmpty then [] else [String.mk acc.reverse]) ++ pyTokens rest []
    else pyTokens rest (c :: acc)

/-- Python `str.split()` with no argument: the maximal runs of
non-whitespace characters, in order (whitespace runs and ends produce no
empty tokens). -/
def pySplit (s : String) : List String :=
  pyTokens s.toList []

/-- The clause filter of the `depends` comprehension (importpkg.py
lines 83-85): a clause contributes its name exactly when it has exactly
one alternative (`len(dep) == 1`), in which case `dep[0]["name"]` is
taken. -/
def singletonName : List String → Option String
  | [x] => some x
  | _ => none

/-- The `encode("ascii")` applied to every contributed dependency name
inside the comprehension; any non-ASCII name aborts `process_control`. -/
def asciiEncodeAll : List String → Option (List String)
  | [] => some []
  | s :: rest => (asciiEncode s).bind (fun t => (asciiEncodeAll rest).map (t :: ·))

/-- `process_control(control_contents)` (importpkg.py lines 73-87) on the
already-parsed deb822 document.  A missing required field (`KeyError`),
a non-ASCII value (`UnicodeEncodeError`) or an empty `Source` token list
(`IndexError` from `split()[0]`) aborts with `none`; a missing `Source`
falls back to the encoded `Package` value. -/
def process_control (doc : ControlDoc) : Option PackageMetadata :=
  doc.package.bind fun packageRaw =>
  (asciiEncode packageRaw).bind fun package =>
  (match doc.source with
   | some v => (asciiEncode v).bind fun v2 => (pySplit v2).head?
   | none => some package).bind fun source =>
  (doc.version.bind asciiEncode).bind fun version =>
  (doc.architecture.bind asciiEncode).bind fun architecture =>
  (asciiEncodeAll (doc.relations_depends.filterMap singletonName)).map fun depends =>
  { package := package, source := source, version := version,
    architecture := architecture, depends := depends }

/-- The byte string `"./control"`, the tar entry name selected inside the
control member (importpkg.py line 104). -/
def controlNameBytes : Bytes := [46, 47, 99, 111, 110, 116, 114, 111, 108]

/-- The `for elem in tf` loop over the control tarball (importpkg.py
lines 103-110), returning the emitted records, the terminal error (if
any) and the final `state`.  Entries not named `./control` are skipped;
at the first `./control` the state check runs, the state moves to
`control_file`, the metadata document is yielded and the loop breaks. -/
def control_tar_loop (E : Oracles) :
    List TarEntry → PState → List Record × Option PkgError × PState
  | [], st => ([], none, st)
  | e :: rest, st =>
    if e.name ≠ controlNameBytes then control_tar_loop E rest st
    else if st ≠ PState.control then
      ([], some (PkgError.valueError "duplicate control file"), st)
    else
      match (E.parseControl e.content).bind process_control with
      | none => ([], some PkgError.controlError, PState.control_file)
      | some md => ([Record.metadata md], none, PState.control_file)

/-- Opening the control member (importpkg.py line 102):
`tarfile.open(fileobj=af, mode="r|gz")` — gzip decompression followed by
the tar iterator — then the control tar loop started in state
`control`. -/
def handle_control (E : Oracles) (body : Bytes) :
    List Record × Option PkgError × PState :=
  match (E.gunzip body).bind E.parseTar with
  | none => ([], some PkgError.tarError, PState.control)
  | some entries => control_tar_loop E entries PState.control

/-- The compression adapter chosen by data member name (importpkg.py
lines 112-120): gzip for `data.tar.gz`, bzip2 for `data.tar.bz2`, xz for
`data.tar.xz`, identity for `data.tar`; `none` for any other name, which
the loop skips (`continue`). -/
def data_decompressor (E : Oracles) (name : String) : Option (Bytes → Option Bytes) :=
  if name = "data.tar.gz" then some E.gunzip
  else if name = "data.tar.bz2" then some E.bunzip2
  else if name = "data.tar.xz" then some E.unxz
  else if name = "data.tar" then some (fun b => some b)
  else none

/-- The `while True` member loop of `process_package` (importpkg.py
lines 93-133).  End of the member stream raises
`ValueError("data.tar not found")`; a `control.tar.gz` member outside
state `start` raises `ValueError("unexpected control.tar.gz")`; a data
member outside state `control_file` raises
`ValueError("missing control file")`; after streaming the data member's
file records a final `"commit"` is yielded and the loop breaks, leaving
any later members unread. -/
def process_loop (E : Oracles) :
    List ArMember → PState → List Record × Option PkgError
  | [], _ => ([], some (PkgError.valueError "data.tar not found"))
  | m :: rest, st =>
    if m.name = "control.tar.gz" then
      if st ≠ PState.start then
        ([], some (PkgError.valueError "unexpected control.tar.gz"))
      else
        match handle_control E m.body with
        | (recs1, some err, _) => (recs1, some err)
        | (recs1, none, st2) =>
          let r := process_loop E rest st2
          (recs1 ++ r.1, r.2)
    else
      match data_decompressor E m.name with
      | none => process_loop E rest st
      | some dec =>
        if st ≠ PState.control_file then
          ([], some (PkgError.valueError "missing control file"))
        else
          match (dec m.body).bind E.parseTar with
          | none => ([], some PkgError.tarError)
          | some entries => (file_records E entries ++ [Record.commit], none)

/-- `process_package(filelike)` (importpkg.py lines 89-133): check the ar
magic, then run the member loop from state `start`.  The result is the
list of yielded records paired with the terminal error, `none` meaning
the generator finished normally. -/
def process_package (E : Oracles) (d : DebInput) : List Record × Option PkgError :=
  if d.magicOk then process_loop E d.members PState.start
  else ([], some PkgError.arFormatError)

/-- The wrapper loop of `process_package_with_hash` (importpkg.py
lines 137-145): forward records until `"commit"`; at `"commit"` the
hashed stream has been drained, so the digest of the whole input is
compared — on mismatch `ValueError("hash sum mismatch")` is raised and
the commit is not yielded, otherwise the commit is yielded and the
iteration breaks (dropping any state of the abandoned inner
generator). -/
def hash_check_loop (digestOk : Bool) :
    List Record → Option PkgError → List Record × Option PkgError
  | [], err => ([], err)
  | r :: rest, err =>
    if r = Record.commit then
      if digestOk then ([Record.commit], none)
      else ([], some (PkgError.valueError "hash sum mismatch"))
    else
      let t := hash_check_loop digestOk rest err
      (r :: t.1, t.2)

/-- `process_package_with_hash(filelike, sha256hash)` (importpkg.py
lines 135-145).  `HashedStream` (modelled from the spec, module
`dedup.hashing` not under `src/`) accumulates the SHA-256 of every byte
read; after the drain loop the digest is that of the entire raw input. -/
def process_package_with_hash (E : Oracles) (sha256hex : Bytes → String)
    (d : DebInput) (expected : String) : List Record × Option PkgError :=
  let r := process_package E d
  hash_check_loop (sha256hex d.rawBytes == expected) r.1 r.2

/-- Round `n` half-to-even to a multiple of `m` (for the significand
rounding of int-to-double conversion). -/
def roundMulHalfEven (n m : Nat) : Nat :=
  let q := n / m
  let r := n % m
  if 2 * r < m then q * m
  else if m < 2 * r then (q + 1) * m
  else if q % 2 = 0 then q * m else (q + 1) * m

/-- Fuel-driven base-2 logarithm (structural recursion, so that concrete
values compute by kernel reduction). -/
def log2Fuel : Nat → Nat → Nat
  | 0, _ => 0
  | fuel + 1, n => if 2 ≤ n then log2Fuel fuel (n / 2) + 1 else 0

/-- Floor of the base-2 logarithm (`natLog2 n = Nat.log2 n`; fuel `n`
suffices since at most `log2 n + 1` halvings are needed). -/
def natLog2 (n : Nat) : Nat := log2Fuel n n

/-- Python `float(n)` for a non-negative int `n`, exactly: IEEE-754
double conversion rounds to 53 significant bits, ties to even.
(The overflow for n ≥ 2^1024 is outside this model.) -/
def round53 (n : Nat) : Nat :=
  if n < 2 ^ 53 then n else roundMulHalfEven n (2 ^ (natLog2 n - 52))

/-- Round `a / b` half-to-even to an integer. -/
def roundDivHalfEven (a b : Nat) : Nat :=
  let q := a / b
  let r := a % b
  if 2 * r < b then q
  else if b < 2 * r then q + 1
  else if q % 2 = 0 then q else q + 1

/-- `"%.1f" % (num / den)` for the exactly-representable values arising
in `format_size` (den a power of 1024 dividing a 53-bit significand
value exactly): the correctly rounded (half-even) one-decimal
rendering. -/
def oneDecimal (num den : Nat) : String :=
  let t := roundDivHalfEven (10 * num) den
  toString (t / 10) ++ "." ++ toString (t % 10)

/-- `format_size(size)` (webapp.py lines 13-26), embedded exactly.
`size = float(size)` is the 53-bit rounding `round53`; each
`size /= 1024` is exact in double arithmetic (pure exponent decrement),
so the running value is `fl / 1024 ^ k` and each `size >= 1024` test is
`1024 ^ (k+1) <= fl`; `k1/k2/k3` mirror the three sequential `if`
statements selecting the format string. -/
def format_size (n : Nat) : String :=
  let fl := round53 n
  let k1 := if 1024 ≤ fl then 1 else 0
  let k2 := if 1024 ^ (k1 + 1) ≤ fl then k1 + 1 else k1
  let k3 := if 1024 ^ (k2 + 1) ≤ fl then k2 + 1 else k2
  if k3 = 0 then toString fl ++ " B"
  else
    oneDecimal fl (1024 ^ k3) ++
      (if k3 = 1 then " KB" else if k3 = 2 then " MB" else " GB")

/-- The rendering described by claim C10, on the integer `n` itself:
`"%d B"` below 1024, otherwise `n / 1024 ^ k` to one decimal in the
largest applicable unit among KB, MB, GB. -/
def format_size_claim (n : Nat) : String :=
  if n < 1024 then toString n ++ " B"
  else if n < 1024 ^ 2 then oneDecimal n 1024 ++ " KB"
  else if n < 1024 ^ 3 then oneDecimal n (1024 ^ 2) ++ " MB"
  else oneDecimal n (1024 ^ 3) ++ " GB"

/-! ### Facts about `process_control` -/

theorem asciiEncode_eq_some {s t : String} (h : asciiEncode s = some t) : t = s := by
  unfold asciiEncode at h
  split at h
  · exact (Option.some.injEq _ _ ▸ h).symm
  · exact absurd h (by simp)

theorem asciiEncodeAll_eq_some :
    ∀ {l l2 : List String}, asciiEncodeAll l = some l2 → l2 = l := by
  intro l
  induction l with
  | nil => intro l2 h; simpa [asciiEncodeAll] using h.symm
  | cons s rest ih =>
    intro l2 h
    unfold asciiEncodeAll at h
    rcases h1 : asciiEncode s with _ | t
    · rw [h1] at h; simp at h
    · rw [h1] at h
      rcases h2 : asciiEncodeAll rest with _ | r2
      · rw [h2] at h; simp at h
      · rw [h2] at h
        obtain rfl : t :: r2 = l2 := by simpa using h
        rw [asciiEncode_eq_some h1, ih h2]

theorem singletonName_eq_some {dep : List String} {x : String} :
    singletonName dep = some x ↔ dep = [x] := by
  cases dep with
  | nil => simp [singletonName]
  | cons a t =>
    cases t with
    | nil => simp [singletonName]
    | cons b t2 => simp [singletonName]

theorem mem_filterMap_singletonName {l : List (List String)} {x : String} :
    x ∈ l.filterMap singletonName ↔ [x] ∈ l := by
  simp only [List.mem_filterMap, singletonName_eq_some]
  constructor
  · rintro ⟨dep, hdep, rfl⟩; exact hdep
  · intro hx; exact ⟨[x], hx, rfl⟩

theorem process_control_eq_some {doc : ControlDoc} {md : PackageMetadata}
    (h : process_control doc = some md) :
    md.depends = doc.relations_depends.filterMap singletonName ∧
    (doc.source = none → md.source = md.package) ∧
    (∀ v, doc.source = some v → (pySplit v).head? = some md.source) := by
  unfold process_control at h
  rcases h1 : doc.package with _ | praw
  · rw [h1] at h; simp at h
  rw [h1] at h
  simp only [Option.bind_eq_some, Option.map_eq_some'] at h
  obtain ⟨a1, ha1, a2, ha2, a3, ha3, a4, ha4, a5, ha5, a6, ha6, hmd⟩ := h
  have hdeps' := asciiEncodeAll_eq_some ha6
  subst hmd
  refine ⟨hdeps', ?_, ?_⟩
  · intro hnone
    rw [hnone] at ha3
    simpa using ha3.symm
  · intro v hv
    rw [hv] at ha3
    simp only [Option.bind_eq_some] at ha3
    obtain ⟨v2, hv2, hhead⟩ := ha3
    rw [asciiEncode_eq_some hv2] at hhead
    exact hhead

/-- C5: in the parsed package metadata, a dependency clause contributes
its package name to the depends set if and only if the clause names
exactly one alternative; clauses with alternation contribute nothing,
and single-name clauses contribute the name verbatim. -/
theorem depends_iff_single_alternative (doc : ControlDoc) (md : PackageMetadata)
    (x : String) (h : process_control doc = some md) :
    x ∈ md.depends ↔ [x] ∈ doc.relations_depends := by
  rw [(process_control_eq_some h).1]
  exact mem_filterMap_singletonName

theorem depends_iff_single_alternative_witness :
    process_control
        { package := some "p", source := none, version := some "1",
          architecture := some "all", relations_depends := [["a"], ["b", "c"]] } =
      some { package := "p", source := "p", version := "1",
             architecture := "all", depends := ["a"] } ∧
    ("a" ∈ (PackageMetadata.mk "p" "p" "1" "all" ["a"]).depends ↔
      ["a"] ∈ [["a"], ["b", "c"]]) :=
  ⟨by decide,
   depends_iff_single_alternative
     { package := some "p", source := none, version := some "1",
       architecture := some "all", relations_depends := [["a"], ["b", "c"]] }
     { package := "p", source := "p", version := "1",
       architecture := "all", depends := ["a"] } "a" (by decide)⟩

/-- C9: the `source` field defaults to the `package` field when the
control document has no Source field, and otherwise equals the first
whitespace-delimited token of the Source value. -/
theorem source_first_token_or_package (doc : ControlDoc) (md : PackageMetadata)
    (h : process_control doc = some md) :
    (doc.source = none → md.source = md.package) ∧
    (∀ v, doc.source = some v → (pySplit v).head? = some md.source) :=
  ⟨(process_control_eq_some h).2.1, (process_control_eq_some h).2.2⟩

theorem source_first_token_or_package_witness :
    process_control
        { package := some "p", source := some " s1 s2 ", version := some "1",
          architecture := some "all", relations_depends := [] } =
      some { package := "p", source := "s1", version := "1",
             architecture := "all", depends := [] } ∧
    (pySplit " s1 s2 ").head? =
      some (PackageMetadata.mk "p" "s1" "1" "all" []).source :=
  ⟨by decide,
   (source_first_token_or_package
     { package := some "p", source := some " s1 s2 ", version := some "1",
       architecture := some "all", relations_depends := [] }
     { package := "p", source := "s1", version := "1",
       architecture := "all", depends := [] } (by decide)).2 " s1 s2 " rfl⟩

/-! ### Facts about the per-file record emission -/

theorem file_records_mem {E : Oracles} {entries : List TarEntry} :
    ∀ r ∈ file_records E entries, ∃ e ∈ entries, e.isReg = true ∧
      ∃ nm, E.utf8Decode e.name = some nm ∧
        r = Record.file nm e.size (get_file_hashes E e.content) := by
  intro r hr
  simp only [file_records, get_hashes, List.mem_filterMap] at hr
  obtain ⟨t, ⟨e, he, hf⟩, hg⟩ := hr
  by_cases hreg : e.isReg
  · rw [if_pos hreg] at hf
    obtain rfl : (e.name, e.size, get_file_hashes E e.content) = t := by simpa using hf
    rcases hdec : E.utf8Decode e.name with _ | nm
    · rw [hdec] at hg; simp at hg
    · rw [hdec] at hg
      obtain rfl : Record.file nm e.size (get_file_hashes E e.content) = r := by
        simpa using hg
      exact ⟨e, he, hreg, nm, hdec, rfl⟩
  · rw [if_neg hreg] at hf
    simp at hf

theorem file_records_length {E : Oracles} :
    ∀ entries : List TarEntry,
      (file_records E entries).length =
        (entries.filter (fun e => e.isReg && (E.utf8Decode e.name).isSome)).length := by
  intro entries
  induction entries with
  | nil => rfl
  | cons e es ih =>
    by_cases hreg : e.isReg
    · rcases hdec : E.utf8Decode e.name with _ | nm
      · simpa [file_records, get_hashes, List.filterMap_cons, List.filter_cons,
               hreg, hdec] using ih
      · simpa [file_records, get_hashes, List.filterMap_cons, List.filter_cons,
               hreg, hdec] using ih
    · simpa [file_records, get_hashes, List.filterMap_cons, List.filter_cons,
             hreg] using ih

/-- C6: a FileRecord is emitted only for regular-file entries whose name
decodes as UTF-8; every emitted record comes from such an entry, and the
number of records equals the number of entries that are regular and
UTF-8-decodable (so skipped entries — non-regular ones, and regular ones
with undecodable names — produce no record, while processing
continues across them). -/
theorem file_records_only_regular_utf8 (E : Oracles) (entries : List TarEntry) :
    (∀ r ∈ file_records E entries, ∃ e ∈ entries, e.isReg = true ∧
       ∃ nm, E.utf8Decode e.name = some nm ∧
         r = Record.file nm e.size (get_file_hashes E e.content)) ∧
    (file_records E entries).length =
      (entries.filter (fun e => e.isReg && (E.utf8Decode e.name).isSome)).length :=
  ⟨file_records_mem, file_records_length entries⟩

/-- Oracle instance used by the concrete witnesses: identity
decompressors, a two-valued tar parse, constant control and hash
oracles. -/
def testOr : Oracles where
  gunzip := fun b => some b
  bunzip2 := fun b => some b
  unxz := fun b => some b
  parseTar := fun b =>
    if b = [1] then
      some [{ name := controlNameBytes, isReg := true, size := 9, content := [7] }]
    else
      some [{ name := [102], isReg := true, size := 1, content := [5] }]
  parseControl := fun _ =>
    some { package := some "x", source := none, version := some "1",
           architecture := some "all", relations_depends := [] }
  utf8Decode := fun b => if b = [200] then none else some "f"
  sha512hex := fun _ => "h"
  gzipCanonical := fun _ => none
  pngCanonical := fun _ => none
  gifCanonical := fun _ => none

theorem file_records_only_regular_utf8_witness :
    (∃ e ∈ [({ name := [0], isReg := false, size := 3, content := [] } : TarEntry),
            { name := [102], isReg := true, size := 1, content := [5] }],
       e.isReg = true ∧ ∃ nm, testOr.utf8Decode e.name = some nm ∧
         Record.file "f" 1 (get_file_hashes testOr [5]) =
           Record.file nm e.size (get_file_hashes testOr e.content)) ∧
    (file_records testOr
        [{ name := [0], isReg := false, size := 3, content := [] },
         { name := [102], isReg := true, size := 1, content := [5] }]).length =
      ([({ name := [0], isReg := false, size := 3, content := [] } : TarEntry),
        { name := [102], isReg := true, size := 1, content := [5] }].filter
          (fun e => e.isReg && (testOr.utf8Decode e.name).isSome)).length :=
  ⟨(file_records_only_regular_utf8 testOr
      [{ name := [0], isReg := false, size := 3, content := [] },
       { name := [102], isReg := true, size := 1, content := [5] }]).1
      (Record.file "f" 1 (get_file_hashes testOr [5])) (by decide),
   (file_records_only_regular_utf8 testOr
      [{ name := [0], isReg := false, size := 3, content := [] },
       { name := [102], isReg := true, size := 1, content := [5] }]).2⟩

theorem get_file_hashes_empty (E : Oracles)
    (hsha : E.sha512hex [] =
      "cf83e1357eefb8bdf1542850d66d8007d620e4050b5715dc83f4a921d36ce9ce47d0d13c5d85f2b0ff8318d2877eec2f63b931bd47417a81a538327af927da3e")
    (hgz : E.gzipCanonical [] = none ∨ E.gzipCanonical [] = some [])
    (hpng : E.pngCanonical [] = none)
    (hgif : E.gifCanonical [] = none) :
    get_file_hashes E [] = [] := by
  have hb : hashBlacklist (E.sha512hex []) = "" := by
    rw [hsha]; decide
  have hgz' : gziphash E [] = "" := by
    rcases hgz with hgz | hgz
    · rw [gziphash, hgz]
      show hashBlacklist "" = ""
      decide
    · rw [gziphash, hgz]
      show hashBlacklist (E.sha512hex []) = ""
      rw [hsha]
      decide
  have hpng' : pnghash E [] = "" := by rw [pnghash, hpng]
  have hgif' : gifhash E [] = "" := by rw [gifhash, hgif]
  simp [get_file_hashes, sha512_nontrivial, hb, hgz', hpng', hgif']

/-- C7: a regular data entry with empty content yields a FileRecord with
an empty hashes mapping — in particular no `sha512` key, because the raw
SHA-512 of the empty byte sequence is in the blacklist of boring values
(importpkg.py lines 32-36) and blacklisted or suppressed digests are
dropped when the dictionary is built. -/
theorem empty_file_record_has_no_hashes (E : Oracles) (e : TarEntry) (nm : String)
    (hreg : e.isReg = true)
    (hcontent : e.content = [])
    (hname : E.utf8Decode e.name = some nm)
    (hsha : E.sha512hex [] =
      "cf83e1357eefb8bdf1542850d66d8007d620e4050b5715dc83f4a921d36ce9ce47d0d13c5d85f2b0ff8318d2877eec2f63b931bd47417a81a538327af927da3e")
    (hgz : E.gzipCanonical [] = none ∨ E.gzipCanonical [] = some [])
    (hpng : E.pngCanonical [] = none)
    (hgif : E.gifCanonical [] = none) :
    file_records E [e] = [Record.file nm e.size []] := by
  have h0 : get_file_hashes E e.content = [] := by
    rw [hcontent]; exact get_file_hashes_empty E hsha hgz hpng hgif
  simp [file_records, get_hashes, hreg, h0, hname, List.filterMap_cons]

/-- Oracle instance whose raw SHA-512 of the empty input is the
blacklisted digest of the empty byte sequence, for the C7 witness. -/
def emptyHashOr : Oracles where
  gunzip := fun b => some b
  bunzip2 := fun b => some b
  unxz := fun b => some b
  parseTar := fun _ => some []
  parseControl := fun _ => none
  utf8Decode := fun _ => some "f"
  sha512hex := fun _ =>
    "cf83e1357eefb8bdf1542850d66d8007d620e4050b5715dc83f4a921d36ce9ce47d0d13c5d85f2b0ff8318d2877eec2f63b931bd47417a81a538327af927da3e"
  gzipCanonical := fun _ => none
  pngCanonical := fun _ => none
  gifCanonical := fun _ => none

theorem empty_file_record_has_no_hashes_witness :
    ({ name := [101], isReg := true, size := 0, content := [] } : TarEntry).isReg = true ∧
    emptyHashOr.utf8Decode [101] = some "f" ∧
    file_records emptyHashOr [{ name := [101], isReg := true, size := 0, content := [] }] =
      [Record.file "f" 0 []] :=
  ⟨rfl, rfl,
   empty_file_record_has_no_hashes emptyHashOr
     { name := [101], isReg := true, size := 0, content := [] } "f"
     rfl rfl rfl rfl (Or.inl rfl) rfl rfl⟩

/-! ### Facts about `format_size` -/

theorem format_size_eq_claim_of_round53 (n : Nat) :
    format_size n = format_size_claim (round53 n) := by
  unfold format_size format_size_claim
  generalize round53 n = fl
  by_cases h1 : 1024 ≤ fl
  · by_cases h2 : 1048576 ≤ fl
    · by_cases h3 : 1073741824 ≤ fl
      · have h1' : ¬ fl < 1024 := by omega
        have h2' : ¬ fl < 1048576 := by omega
        have h3' : ¬ fl < 1073741824 := by omega
        simp [h1, h2, h3, h1', h2', h3']
      · have h1' : ¬ fl < 1024 := by omega
        have h2' : ¬ fl < 1048576 := by omega
        have h3' : fl < 1073741824 := by omega
        simp [h1, h2, h3, h1', h2', h3']
    · have h1' : ¬ fl < 1024 := by omega
      have h2' : fl < 1048576 := by omega
      have h3 : ¬ 1073741824 ≤ fl := by omega
      simp [h1, h2, h3, h1', h2']
  · have h1' : fl < 1024 := by omega
    have h2 : ¬ 1048576 ≤ fl := by omega
    simp [h1, h2, h1']

set_option maxRecDepth 100000 in
/-- C10 counterexample: at `n = 2 ^ 60 + 2 ^ 28 + 1` the code renders
the double-rounded value (fractional part exactly .25, formatted half
to even as `.2`) while the claim's exact rendering of `n / 1024 ^ 3`
rounds to `.3`. -/
theorem format_size_exact_claim_fails :
    format_size 1152921504875282433 ≠ format_size_claim 1152921504875282433 ∧
    format_size 1152921504875282433 = "1073741824.2 GB" ∧
    format_size_claim 1152921504875282433 = "1073741824.3 GB" := by
  refine ⟨?_, by decide, by decide⟩
  decide

/-- C10 (amended): `format_size` renders `float(n)` — `n` rounded to
IEEE-754 double precision (53-bit significand, ties to even) — in the
largest unit reached by repeated division by 1024 among B, KB, MB, GB,
with `%d` below 1024 and one (half-even) decimal otherwise; for every
`n < 2 ^ 53` the conversion is exact and the claim holds as stated. -/
theorem format_size_renders_double (n : Nat) :
    format_size n = format_size_claim (round53 n) ∧
    (n < 2 ^ 53 → format_size n = format_size_claim n) := by
  refine ⟨format_size_eq_claim_of_round53 n, fun h => ?_⟩
  rw [format_size_eq_claim_of_round53 n, round53, if_pos h]

theorem format_size_renders_double_witness :
    123456789 < 2 ^ 53 ∧ format_size 123456789 = format_size_claim 123456789 :=
  ⟨by decide, (format_size_renders_double 123456789).2 (by decide)⟩

/-! ### Facts about the member loop of `process_package` -/

theorem file_records_are_files {E : Oracles} {entries : List TarEntry} :
    ∀ r ∈ file_records E entries, ∃ nm s hs, r = Record.file nm s hs := by
  intro r hr
  obtain ⟨e, -, -, nm, -, hr'⟩ := file_records_mem r hr
  exact ⟨nm, e.size, get_file_hashes E e.content, hr'⟩

theorem control_tar_loop_control_success (E : Oracles) :
    ∀ (entries : List TarEntry) (recs : List Record) (st2 : PState),
      control_tar_loop E entries PState.control = (recs, none, st2) →
      (recs = [] ∧ st2 = PState.control) ∨
      ∃ md, recs = [Record.metadata md] ∧ st2 = PState.control_file := by
  intro entries
  induction entries with
  | nil =>
    intro recs st2 h
    simp only [control_tar_loop, Prod.mk.injEq] at h
    exact Or.inl ⟨h.1.symm, h.2.2.symm⟩
  | cons e rest ih =>
    intro recs st2 h
    simp only [control_tar_loop] at h
    split at h
    · exact ih recs st2 h
    · split at h
      · rename_i habs
        exact absurd rfl habs
      · split at h
        · simp at h
        · rename_i md hmd
          simp only [Prod.mk.injEq] at h
          exact Or.inr ⟨md, h.1.symm, h.2.2.symm⟩

theorem control_tar_loop_error (E : Oracles) :
    ∀ (entries : List TarEntry) (st : PState) (recs : List Record)
      (err : PkgError) (st2 : PState),
      control_tar_loop E entries st = (recs, some err, st2) → recs = [] := by
  intro entries
  induction entries with
  | nil =>
    intro st recs err st2 h
    simp only [control_tar_loop, Prod.mk.injEq] at h
    exact absurd h.2.1 (by simp)
  | cons e rest ih =>
    intro st recs err st2 h
    simp only [control_tar_loop] at h
    split at h
    · exact ih st recs err st2 h
    · split at h
      · simp only [Prod.mk.injEq] at h
        exact h.1.symm
      · split at h
        · simp only [Prod.mk.injEq] at h
          exact h.1.symm
        · simp only [Prod.mk.injEq] at h
          exact absurd h.2.1 (by simp)

theorem handle_control_success (E : Oracles) {b : Bytes} {recs : List Record}
    {st2 : PState} (h : handle_control E b = (recs, none, st2)) :
    (recs = [] ∧ st2 = PState.control) ∨
    ∃ md, recs = [Record.metadata md] ∧ st2 = PState.control_file := by
  unfold handle_control at h
  rcases hbind : (E.gunzip b).bind E.parseTar with _ | entries <;> rw [hbind] at h
  · simp at h
  · exact control_tar_loop_control_success E entries recs st2 h

theorem handle_control_error (E : Oracles) {b : Bytes} {recs : List Record}
    {err : PkgError} {st2 : PState}
    (h : handle_control E b = (recs, some err, st2)) : recs = [] := by
  unfold handle_control at h
  rcases hbind : (E.gunzip b).bind E.parseTar with _ | entries <;> rw [hbind] at h
  · simp only [Prod.mk.injEq] at h
    exact h.1.symm
  · exact control_tar_loop_error E entries PState.control recs err st2 h

theorem process_loop_shape (E : Oracles) :
    ∀ (ms : List ArMember) (st : PState) (recs : List Record),
      process_loop E ms st = (recs, none) →
      (st = PState.start →
        ∃ md files, recs = Record.metadata md :: (files ++ [Record.commit]) ∧
          ∀ r ∈ files, ∃ nm s hs, r = Record.file nm s hs) ∧
      st ≠ PState.control ∧
      (st = PState.control_file →
        ∃ files, recs = files ++ [Record.commit] ∧
          ∀ r ∈ files, ∃ nm s hs, r = Record.file nm s hs) := by
  intro ms
  induction ms with
  | nil =>
    intro st recs h
    simp [process_loop] at h
  | cons m rest ih =>
    intro st recs h
    simp only [process_loop] at h
    split at h
    · -- member named control.tar.gz
      split at h
      · simp at h
      · rename_i hname hst
        have hst' : st = PState.start := not_not.mp hst
        subst hst'
        split at h
        · simp at h
        · rename_i recs1 st2 hhc
          rcases hpl : process_loop E rest st2 with ⟨recs2, err2⟩
          rw [hpl] at h
          simp only [Prod.mk.injEq] at h
          obtain ⟨hrecs, herr⟩ := h
          subst herr
          have hshape := ih st2 recs2 hpl
          rcases handle_control_success E hhc with ⟨hr1, hst2⟩ | ⟨md, hr1, hst2⟩
          · subst hst2
            exact absurd rfl hshape.2.1
          · subst hst2
            obtain ⟨files, hf, hfiles⟩ := hshape.2.2 rfl
            refine ⟨fun _ => ⟨md, files, ?_, hfiles⟩, by decide, fun habs => absurd habs (by decide)⟩
            rw [← hrecs, hr1, hf]
            rfl
    · -- other member names
      split at h
      · exact ih st recs h
      · split at h
        · simp at h
        · rename_i hst
          have hst' : st = PState.control_file := not_not.mp hst
          subst hst'
          split at h
          · simp at h
          · rename_i entries hentries
            simp only [Prod.mk.injEq] at h
            refine ⟨fun habs => absurd habs (by decide), by decide,
              fun _ => ⟨file_records E entries, h.1.symm, file_records_are_files⟩⟩

theorem process_loop_append (E : Oracles) :
    ∀ (ms : List ArMember) (st : PState) (recs : List Record) (extra : List ArMember),
      process_loop E ms st = (recs, none) →
      process_loop E (ms ++ extra) st = (recs, none) := by
  intro ms
  induction ms with
  | nil =>
    intro st recs extra h
    simp [process_loop] at h
  | cons m rest ih =>
    intro st recs extra h
    simp only [process_loop] at h
    simp only [List.cons_append, process_loop]
    split at h
    · rename_i hname
      rw [if_pos hname]
      split at h
      · simp at h
      · rename_i hst
        rw [if_neg hst]
        split at h
        · simp at h
        · rename_i recs1 st2 hhc
          show (recs1 ++ (process_loop E (rest ++ extra) st2).1,
                (process_loop E (rest ++ extra) st2).2) = (recs, none)
          rcases hpl : process_loop E rest st2 with ⟨recs2, err2⟩
          rw [hpl] at h
          simp only [Prod.mk.injEq] at h
          obtain ⟨hrecs, herr⟩ := h
          subst herr
          rw [ih st2 recs2 extra hpl]
          simpa using hrecs
    · rename_i hname
      rw [if_neg hname]
      split at h
      · rename_i hdd
        exact ih st recs extra h
      · rename_i dec hdd
        by_cases hst : st ≠ PState.control_file
        · rw [if_pos hst] at h
          simp at h
        · rw [if_neg hst] at h ⊢
          split at h
          · simp at h
          · rename_i entries hentries
            exact h

theorem process_loop_no_commit (E : Oracles) :
    ∀ (ms : List ArMember) (st : PState) (recs : List Record) (err : PkgError),
      process_loop E ms st = (recs, some err) → Record.commit ∉ recs := by
  intro ms
  induction ms with
  | nil =>
    intro st recs err h
    simp only [process_loop, Prod.mk.injEq] at h
    rw [← h.1]
    simp
  | cons m rest ih =>
    intro st recs err h
    simp only [process_loop] at h
    split at h
    · split at h
      · simp only [Prod.mk.injEq] at h
        rw [← h.1]
        simp
      · split at h
        · rename_i recs1 e2 st2 hhc
          simp only [Prod.mk.injEq] at h
          rw [← h.1, handle_control_error E hhc]
          simp
        · rename_i recs1 st2 hhc
          rcases hpl : process_loop E rest st2 with ⟨recs2, err2⟩
          rw [hpl] at h
          simp only [Prod.mk.injEq] at h
          obtain ⟨hrecs, herr⟩ := h
          cases err2 with
          | none => exact absurd herr (by simp)
          | some e2 =>
            rw [← hrecs]
            intro hmem
            rcases List.mem_append.mp hmem with hm1 | hm2
            · rcases handle_control_success E hhc with ⟨hr1, -⟩ | ⟨md, hr1, -⟩
              · rw [hr1] at hm1
                simp at hm1
              · rw [hr1] at hm1
                simp at hm1
            · exact ih st2 recs2 e2 hpl hm2
    · split at h
      · exact ih st recs err h
      · split at h
        · simp only [Prod.mk.injEq] at h
          rw [← h.1]
          simp
        · split at h
          · simp only [Prod.mk.injEq] at h
            rw [← h.1]
            simp
          · simp only [Prod.mk.injEq] at h
            exact absurd h.2 (by simp)

theorem process_package_success_shape (E : Oracles) {d : DebInput} {recs : List Record}
    (h : process_package E d = (recs, none)) :
    ∃ md files, recs = Record.metadata md :: (files ++ [Record.commit]) ∧
      ∀ r ∈ files, ∃ nm s hs, r = Record.file nm s hs := by
  unfold process_package at h
  split at h
  · exact (process_loop_shape E d.members PState.start recs h).1 rfl
  · simp at h

theorem process_package_error_no_commit (E : Oracles) {d : DebInput}
    {recs : List Record} {err : PkgError}
    (h : process_package E d = (recs, some err)) : Record.commit ∉ recs := by
  unfold process_package at h
  split at h
  · exact process_loop_no_commit E d.members PState.start recs err h
  · simp only [Prod.mk.injEq] at h
    rw [← h.1]
    simp

theorem commit_not_mem_prefix {md : PackageMetadata} {files : List Record}
    (hfiles : ∀ r ∈ files, ∃ nm s hs, r = Record.file nm s hs) :
    Record.commit ∉ Record.metadata md :: files := by
  intro hmem
  rcases List.mem_cons.mp hmem with hm | hm
  · exact Record.noConfusion hm
  · obtain ⟨nm, s, hs, heq⟩ := hfiles _ hm
    exact Record.noConfusion heq

theorem hash_check_loop_no_commit (dok : Bool) :
    ∀ (recs : List Record) (err : Option PkgError), Record.commit ∉ recs →
      hash_check_loop dok recs err = (recs, err) := by
  intro recs
  induction recs with
  | nil => intro err _; rfl
  | cons r rest ih =>
    intro err hmem
    have hr : ¬ r = Record.commit := fun hr => hmem (hr ▸ List.mem_cons_self r rest)
    have ht : Record.commit ∉ rest := fun hm => hmem (List.mem_cons_of_mem r hm)
    simp only [hash_check_loop, if_neg hr, ih err ht]

theorem hash_check_loop_mismatch :
    ∀ (pre : List Record) (err : Option PkgError), Record.commit ∉ pre →
      hash_check_loop false (pre ++ [Record.commit]) err =
        (pre, some (PkgError.valueError "hash sum mismatch")) := by
  intro pre
  induction pre with
  | nil => intro err _; rfl
  | cons r rest ih =>
    intro err hmem
    have hr : ¬ r = Record.commit := fun hr => hmem (hr ▸ List.mem_cons_self r rest)
    have ht : Record.commit ∉ rest := fun hm => hmem (List.mem_cons_of_mem r hm)
    simp only [List.cons_append, hash_check_loop, if_neg hr]
    rw [show List.append rest [Record.commit] = rest ++ [Record.commit] from rfl,
        ih err ht]

theorem hash_check_loop_match :
    ∀ (pre : List Record) (err : Option PkgError), Record.commit ∉ pre →
      hash_check_loop true (pre ++ [Record.commit]) err =
        (pre ++ [Record.commit], none) := by
  intro pre
  induction pre with
  | nil => intro err _; rfl
  | cons r rest ih =>
    intro err hmem
    have hr : ¬ r = Record.commit := fun hr => hmem (hr ▸ List.mem_cons_self r rest)
    have ht : Record.commit ∉ rest := fun hm => hmem (List.mem_cons_of_mem r hm)
    simp only [List.cons_append, hash_check_loop, if_neg hr]
    rw [show List.append rest [Record.commit] = rest ++ [Record.commit] from rfl,
        ih err ht]

/-- C1: on every input on which `process_package` finishes normally, the
record stream is exactly one metadata record, then zero or more file
records, then exactly one `"commit"`; and any further ar members after
the data member are left unread — appending extra members to the input
does not change the emitted stream. -/
theorem process_package_stream_shape (E : Oracles) (d : DebInput) (recs : List Record)
    (h : process_package E d = (recs, none)) :
    (∃ md files, recs = Record.metadata md :: (files ++ [Record.commit]) ∧
       ∀ r ∈ files, ∃ nm s hs, r = Record.file nm s hs) ∧
    ∀ extra : List ArMember,
      process_package E
          { rawBytes := d.rawBytes, magicOk := d.magicOk,
            members := d.members ++ extra } =
        (recs, none) := by
  refine ⟨process_package_success_shape E h, fun extra => ?_⟩
  unfold process_package at h ⊢
  split at h
  · rename_i hm
    show (if d.magicOk then process_loop E (d.members ++ extra) PState.start
          else ([], some PkgError.arFormatError)) = (recs, none)
    rw [if_pos hm]
    exact process_loop_append E d.members PState.start recs extra h
  · simp at h

theorem process_package_stream_shape_witness :
    process_package testOr
        { rawBytes := [], magicOk := true,
          members := [{ name := "control.tar.gz", body := [1] },
                      { name := "data.tar", body := [2] }] } =
      ([Record.metadata { package := "x", source := "x", version := "1",
                          architecture := "all", depends := [] },
        Record.file "f" 1 [("sha512", "h")], Record.commit], none) ∧
    process_package testOr
        { rawBytes := [], magicOk := true,
          members := [{ name := "control.tar.gz", body := [1] },
                      { name := "data.tar", body := [2] }] ++
            [{ name := "junk", body := [9] }] } =
      ([Record.metadata { package := "x", source := "x", version := "1",
                          architecture := "all", depends := [] },
        Record.file "f" 1 [("sha512", "h")], Record.commit], none) :=
  ⟨by decide,
   (process_package_stream_shape testOr
      { rawBytes := [], magicOk := true,
        members := [{ name := "control.tar.gz", body := [1] },
                    { name := "data.tar", body := [2] }] }
      [Record.metadata { package := "x", source := "x", version := "1",
                         architecture := "all", depends := [] },
       Record.file "f" 1 [("sha512", "h")], Record.commit]
      (by decide)).2 [{ name := "junk", body := [9] }]⟩

/-- C2: when the inner decoder succeeds (so it reaches its CommitMarker)
but the SHA-256 of the whole raw input differs from the expected value,
`process_package_with_hash` terminates with
`ValueError("hash sum mismatch")` and no `"commit"` record is emitted to
the caller. -/
theorem hash_mismatch_no_commit (E : Oracles) (s256 : Bytes → String)
    (d : DebInput) (expected : String) (recs : List Record)
    (hsucc : process_package E d = (recs, none))
    (hne : s256 d.rawBytes ≠ expected) :
    (process_package_with_hash E s256 d expected).2 =
      some (PkgError.valueError "hash sum mismatch") ∧
    Record.commit ∉ (process_package_with_hash E s256 d expected).1 := by
  obtain ⟨md, files, hrecs, hfiles⟩ := process_package_success_shape E hsucc
  have hpre : Record.commit ∉ Record.metadata md :: files := commit_not_mem_prefix hfiles
  have hbeq : (s256 d.rawBytes == expected) = false := beq_eq_false_iff_ne.mpr hne
  have hval : process_package_with_hash E s256 d expected =
      (Record.metadata md :: files, some (PkgError.valueError "hash sum mismatch")) := by
    unfold process_package_with_hash
    rw [hsucc]
    show hash_check_loop (s256 d.rawBytes == expected) recs none =
      (Record.metadata md :: files, some (PkgError.valueError "hash sum mismatch"))
    rw [hbeq, hrecs,
        show Record.metadata md :: (files ++ [Record.commit]) =
          (Record.metadata md :: files) ++ [Record.commit] from rfl]
    exact hash_check_loop_mismatch (Record.metadata md :: files) none hpre
  rw [hval]
  exact ⟨rfl, hpre⟩

theorem hash_mismatch_no_commit_witness :
    process_package testOr
        { rawBytes := [3], magicOk := true,
          members := [{ name := "control.tar.gz", body := [1] },
                      { name := "data.tar", body := [2] }] } =
      ([Record.metadata { package := "x", source := "x", version := "1",
                          architecture := "all", depends := [] },
        Record.file "f" 1 [("sha512", "h")], Record.commit], none) ∧
    (fun _ : Bytes => "a") [3] ≠ "b" ∧
    ((process_package_with_hash testOr (fun _ => "a")
        { rawBytes := [3], magicOk := true,
          members := [{ name := "control.tar.gz", body := [1] },
                      { name := "data.tar", body := [2] }] } "b").2 =
        some (PkgError.valueError "hash sum mismatch") ∧
      Record.commit ∉ (process_package_with_hash testOr (fun _ => "a")
        { rawBytes := [3], magicOk := true,
          members := [{ name := "control.tar.gz", body := [1] },
                      { name := "data.tar", body := [2] }] } "b").1) :=
  ⟨by decide, by decide,
   hash_mismatch_no_commit testOr (fun _ => "a")
     { rawBytes := [3], magicOk := true,
       members := [{ name := "control.tar.gz", body := [1] },
                   { name := "data.tar", body := [2] }] } "b"
     [Record.metadata { package := "x", source := "x", version := "1",
                        architecture := "all", depends := [] },
      Record.file "f" 1 [("sha512", "h")], Record.commit]
     (by decide) (by decide)⟩

/-- C3: when the SHA-256 of the whole raw input equals the expected
value, `process_package_with_hash` emits exactly what `process_package`
emits on the same input (records and terminal outcome alike). -/
theorem hash_match_identical (E : Oracles) (s256 : Bytes → String)
    (d : DebInput) (expected : String)
    (heq : s256 d.rawBytes = expected) :
    process_package_with_hash E s256 d expected = process_package E d := by
  have hbeq : (s256 d.rawBytes == expected) = true := beq_iff_eq.mpr heq
  unfold process_package_with_hash
  rcases hp : process_package E d with ⟨recs, err⟩
  show hash_check_loop (s256 d.rawBytes == expected) recs err = (recs, err)
  rw [hbeq]
  cases err with
  | none =>
    obtain ⟨md, files, hrecs, hfiles⟩ := process_package_success_shape E hp
    have hpre : Record.commit ∉ Record.metadata md :: files := commit_not_mem_prefix hfiles
    rw [hrecs,
        show Record.metadata md :: (files ++ [Record.commit]) =
          (Record.metadata md :: files) ++ [Record.commit] from rfl]
    exact hash_check_loop_match (Record.metadata md :: files) none hpre
  | some e =>
    exact hash_check_loop_no_commit true recs (some e)
      (process_package_error_no_commit E hp)

theorem hash_match_identical_witness :
    (fun _ : Bytes => "a") [3] = "a" ∧
    process_package_with_hash testOr (fun _ => "a")
        { rawBytes := [3], magicOk := true,
          members := [{ name := "control.tar.gz", body := [1] },
                      { name := "data.tar", body := [2] }] } "a" =
      process_package testOr
        { rawBytes := [3], magicOk := true,
          members := [{ name := "control.tar.gz", body := [1] },
                      { name := "data.tar", body := [2] }] } :=
  ⟨rfl,
   hash_match_identical testOr (fun _ => "a")
     { rawBytes := [3], magicOk := true,
       members := [{ name := "control.tar.gz", body := [1] },
                   { name := "data.tar", body := [2] }] } "a" rfl⟩

/-- C4 counterexample: a `.deb` whose member list contains a second
`control.tar.gz` after a complete control member fails with
`ValueError("unexpected control.tar.gz")` (the line 99-100 state check),
not with `ValueError("duplicate control file")` as the claim states —
the latter message guards an unreachable branch inside the control tar
loop. -/
theorem second_control_gz_counterexample :
    (process_package testOr
        { rawBytes := [], magicOk := true,
          members := [{ name := "control.tar.gz", body := [1] },
                      { name := "control.tar.gz", body := [1] },
                      { name := "data.tar", body := [2] }] }).2 =
      some (PkgError.valueError "unexpected control.tar.gz") ∧
    (process_package testOr
        { rawBytes := [], magicOk := true,
          members := [{ name := "control.tar.gz", body := [1] },
                      { name := "control.tar.gz", body := [1] },
                      { name := "data.tar", body := [2] }] }).2 ≠
      some (PkgError.valueError "duplicate control file") := by
  constructor
  · decide
  · decide

/-- C4 (amended): a `control.tar.gz` member encountered in any state
other than `start` — in particular a second one after the control member
has been seen — makes the decoder fail with
`ValueError("unexpected control.tar.gz")`. -/
theorem second_control_gz_unexpected (E : Oracles) (b : Bytes)
    (rest : List ArMember) (st : PState) (hst : st ≠ PState.start) :
    process_loop E ({ name := "control.tar.gz", body := b } :: rest) st =
      ([], some (PkgError.valueError "unexpected control.tar.gz")) := by
  show (if ({ name := "control.tar.gz", body := b } : ArMember).name = "control.tar.gz" then
          if st ≠ PState.start then
            ([], some (PkgError.valueError "unexpected control.tar.gz"))
          else
            match handle_control E b with
            | (recs1, some err, _) => (recs1, some err)
            | (recs1, none, st2) =>
              let r := process_loop E rest st2
              (recs1 ++ r.1, r.2)
        else
          match data_decompressor E "control.tar.gz" with
          | none => process_loop E rest st
          | some dec =>
            if st ≠ PState.control_file then
              ([], some (PkgError.valueError "missing control file"))
            else
              match (dec b).bind E.parseTar with
              | none => ([], some PkgError.tarError)
              | some entries => (file_records E entries ++ [Record.commit], none)) =
      ([], some (PkgError.valueError "unexpected control.tar.gz"))
  rw [if_pos rfl, if_pos hst]

theorem second_control_gz_unexpected_witness :
    PState.control_file ≠ PState.start ∧
    process_loop testOr [{ name := "control.tar.gz", body := [1] }]
        PState.control_file =
      ([], some (PkgError.valueError "unexpected control.tar.gz")) :=
  ⟨by decide,
   second_control_gz_unexpected testOr [1] [] PState.control_file (by decide)⟩

theorem data_decompressor_xz (E : Oracles) :
    data_decompressor E "data.tar.xz" = some E.unxz := by
  unfold data_decompressor
  rw [if_neg (by decide), if_neg (by decide), if_pos rfl]

theorem data_decompressor_gz (E : Oracles) :
    data_decompressor E "data.tar.gz" = some E.gunzip := by
  unfold data_decompressor
  rw [if_pos rfl]

theorem process_loop_data_cons (E : Oracles) (m : ArMember) (rest : List ArMember)
    (st : PState) (hname : ¬ m.name = "control.tar.gz")
    (dec : Bytes → Option Bytes) (hdd : data_decompressor E m.name = some dec) :
    process_loop E (m :: rest) st =
      if st ≠ PState.control_file then
        ([], some (PkgError.valueError "missing control file"))
      else
        match (dec m.body).bind E.parseTar with
        | none => ([], some PkgError.tarError)
        | some entries => (file_records E entries ++ [Record.commit], none) := by
  simp only [process_loop]
  rw [if_neg hname, hdd]

theorem process_loop_xz_eq_gz (E : Oracles) {bx bg T : Bytes}
    (hx : E.unxz bx = some T) (hg : E.gunzip bg = some T)
    (restx restg : List ArMember) :
    ∀ (pre : List ArMember) (st : PState),
      process_loop E (pre ++ { name := "data.tar.xz", body := bx } :: restx) st =
      process_loop E (pre ++ { name := "data.tar.gz", body := bg } :: restg) st := by
  intro pre
  induction pre with
  | nil =>
    intro st
    rw [List.nil_append, List.nil_append,
        process_loop_data_cons E _ restx st
          (fun hcon => (by decide : ¬ ("data.tar.xz" : String) = "control.tar.gz") hcon)
          E.unxz (data_decompressor_xz E),
        process_loop_data_cons E _ restg st
          (fun hcon => (by decide : ¬ ("data.tar.gz" : String) = "control.tar.gz") hcon)
          E.gunzip (data_decompressor_gz E)]
    show (if st ≠ PState.control_file then
            ([], some (PkgError.valueError "missing control file"))
          else
            match (E.unxz bx).bind E.parseTar with
            | none => ([], some PkgError.tarError)
            | some entries => (file_records E entries ++ [Record.commit], none)) =
        (if st ≠ PState.control_file then
            ([], some (PkgError.valueError "missing control file"))
          else
            match (E.gunzip bg).bind E.parseTar with
            | none => ([], some PkgError.tarError)
            | some entries => (file_records E entries ++ [Record.commit], none))
    rw [hx, hg]
  | cons m pre2 ihp =>
    intro st
    by_cases hname : m.name = "control.tar.gz"
    · simp only [List.cons_append, process_loop]
      rw [if_pos hname, if_pos hname]
      by_cases hst : st ≠ PState.start
      · rw [if_pos hst, if_pos hst]
      · rw [if_neg hst, if_neg hst]
        rcases hhc : handle_control E m.body with ⟨recs1, err1, st2⟩
        cases err1 with
        | some e => rfl
        | none =>
          show (recs1 ++ (process_loop E (pre2 ++ { name := "data.tar.xz", body := bx } :: restx) st2).1,
                (process_loop E (pre2 ++ { name := "data.tar.xz", body := bx } :: restx) st2).2) =
              (recs1 ++ (process_loop E (pre2 ++ { name := "data.tar.gz", body := bg } :: restg) st2).1,
                (process_loop E (pre2 ++ { name := "data.tar.gz", body := bg } :: restg) st2).2)
          rw [ihp st2]
    · simp only [List.cons_append, process_loop]
      rw [if_neg hname, if_neg hname]
      rcases hdd : data_decompressor E m.name with _ | dec
      · exact ihp st
      · rfl

/-- C8: a `.deb` whose data member is `data.tar.xz` with a body that xz
decompresses to the tar byte stream `T` emits exactly the same record
stream as the `.deb` that instead carries `data.tar.gz` with a body that
gzip decompresses to the same `T` — the compression adapter is selected
by member name and the rest of the processing sees only the decompressed
stream. -/
theorem data_tar_xz_gz_same_stream (E : Oracles) (pre : List ArMember)
    (bx bg T : Bytes) (restx restg : List ArMember)
    (raw1 raw2 : Bytes) (mOk : Bool)
    (hx : E.unxz bx = some T) (hg : E.gunzip bg = some T) :
    process_package E
        { rawBytes := raw1, magicOk := mOk,
          members := pre ++ { name := "data.tar.xz", body := bx } :: restx } =
    process_package E
        { rawBytes := raw2, magicOk := mOk,
          members := pre ++ { name := "data.tar.gz", body := bg } :: restg } := by
  unfold process_package
  cases mOk with
  | false => rfl
  | true =>
    show process_loop E (pre ++ { name := "data.tar.xz", body := bx } :: restx)
          PState.start =
        process_loop E (pre ++ { name := "data.tar.gz", body := bg } :: restg)
          PState.start
    exact process_loop_xz_eq_gz E hx hg restx restg pre PState.start

theorem data_tar_xz_gz_same_stream_witness :
    testOr.unxz [2] = some [2] ∧ testOr.gunzip [2] = some [2] ∧
    process_package testOr
        { rawBytes := [], magicOk := true,
          members := [{ name := "control.tar.gz", body := [1] }] ++
            { name := "data.tar.xz", body := [2] } :: [] } =
      process_package testOr
        { rawBytes := [7], magicOk := true,
          members := [{ name := "control.tar.gz", body := [1] }] ++
            { name := "data.tar.gz", body := [2] } :: [{ name := "junk", body := [] }] } :=
  ⟨rfl, rfl,
   data_tar_xz_gz_same_stream testOr [{ name := "control.tar.gz", body := [1] }]
     [2] [2] [2] [] [{ name := "junk", body := [] }] [] [7] true rfl rfl⟩
